import Mathlib

/-!
# Verification of the RAG movie-database pipeline

Shallow embedding of the retrieval-augmented question-answering pipeline of
`rag_movie_database.ipynb`: document building from tabular movie records,
vector-store ingestion and retrieval by cosine distance, prompt assembly from
the notebook's `DOCUMENT_PROMPT` / `QUESTION_PROMPT` templates, and the
answer chain with source extraction.
-/

namespace RagMovie

/-- One row of the tabular input (`IMDB.csv`): `tconst` identifier, title,
description, genre list and the `titleType` tag.  Fields that can be missing
in the CSV are `Option`-valued. -/
structure SourceRecord where
  identifier : Option String
  title : Option String
  description : String
  genres : List String
  titleType : String
deriving DecidableEq

/-- A langchain `Document`: `page_content` text plus the `source` metadata
(the IMDB link). -/
structure Document where
  content : String
  source : String
deriving DecidableEq

/-- Comma-joining of the genre list, as in the `genres` column of the CSV
(for example `Crime,Drama,Thriller`). -/
def joinGenres : List String → String
  | [] => ""
  | [g] => g
  | g :: g' :: gs => g ++ "," ++ joinGenres (g' :: gs)

/-- The `page_content` column of Task 2: `Title:` line, `Genre:` line with
the comma-joined genres, `Description:` line, in that order. -/
def pageContent (title : String) (genres : List String) (description : String) : String :=
  "Title: " ++ title ++ "\nGenre: " ++ joinGenres genres ++ "\nDescription: " ++ description

/-- The `source` column of Task 1: the IMDB base locator followed by the
`tconst` identifier. -/
def sourceUri (identifier : String) : String :=
  "https://www.imdb.com/title/" ++ identifier ++ "/"

/-- Modelled from the spec: §7 validation failure of the Document Builder,
which is not implemented in the notebook (its Task 2 code cell is empty). -/
inductive ValidationError where
  | missingTitle
  | missingIdentifier
deriving DecidableEq

/-- Modelled from the spec: §4.1 `Document Builder.build` on one record.  The
notebook's Task 2 cell is empty; the rendering of `page_content` follows the
notebook's documented format, the validation follows the spec (fails with
`ValidationError` if a record lacks title or identifier). -/
def buildOne (r : SourceRecord) : Except ValidationError Document :=
  match r.title, r.identifier with
  | none, _ => .error .missingTitle
  | some _, none => .error .missingIdentifier
  | some t, some i =>
      .ok { content := pageContent t r.genres r.description, source := sourceUri i }

/-- Modelled from the spec: §4.1 `Document Builder.build` over a record
sequence, failing on the first invalid record. -/
def build : List SourceRecord → Except ValidationError (List Document)
  | [] => .ok []
  | r :: rs =>
      match buildOne r with
      | .error e => .error e
      | .ok d =>
          match build rs with
          | .error e => .error e
          | .ok ds => .ok (d :: ds)

/-- Whether `build` succeeds on a record sequence. -/
def buildSucceeds (rs : List SourceRecord) : Bool :=
  match build rs with
  | .ok _ => true
  | .error _ => false

/-- A vector of rational coordinates standing for an embedding vector. -/
abbrev Vec := List ℚ

/-- An entry of the vector index: unique key, stored embedding vector, and
the document (Pinecone stores the document fields as metadata). -/
structure IndexEntry where
  key : String
  vector : Vec
  doc : Document
deriving DecidableEq

/-- `total_vector_count` of `index.describe_index_stats()`. -/
def totalVectorCount (store : List IndexEntry) : Nat :=
  store.length

/-- The ingestion control flow of Task 5: if the index already holds at least
one vector, reuse the existing index unchanged (`from_existing_index`);
otherwise upsert every document (`from_documents`).  The embedding function
is a parameter (it is the external OpenAI embedding client). -/
def ingest (embed : Document → Vec) (docs : List Document) (store : List IndexEntry) :
    List IndexEntry :=
  if totalVectorCount store > 0 then store
  else store ++ docs.map (fun d => { key := d.source, vector := embed d, doc := d })

/-- Modelled from the spec: §4.2/§7 failure kinds of the external Embedding
Client (the OpenAI embeddings API is not code of this repository). -/
inductive EmbeddingServiceError where
  | timeout
  | serviceError
deriving DecidableEq

/-- Modelled from the spec: §4.4/§7 failure kinds of the external Language
Model collaborator. -/
inductive CompletionServiceError where
  | timeout
  | rateLimit
  | auth
deriving DecidableEq

/-- Rendering of one document through the notebook's `DOCUMENT_PROMPT`
template: the `page_content`, the labeled IMDB source line, and the
nine-character `=========` separator. -/
def renderDoc (d : Document) : String :=
  d.content ++ "\nIMDB link: " ++ d.source ++ "\n========="

/-- Modelled from the spec: §4.3 concatenation of the rendered documents into
the `summaries` block, in retriever order (the combining code lives in
langchain's stuff chain, not in the notebook); blocks are separated by a
blank line. -/
def summariesOf : List Document → String
  | [] => ""
  | [d] => renderDoc d
  | d :: d' :: ds => renderDoc d ++ "\n\n" ++ summariesOf (d' :: ds)

/-- The text of the notebook's `QUESTION_PROMPT` before the `question`
placeholder, verbatim, including the fixed instructions and the worked
in-context example. -/
def qpHead : String :=
  "Given the following extracted parts of a movie database and a question, create a final answer with the IMDB link as source (\"SOURCE\").\nIf you don't know the answer, just say that you don't know. Don't try to make up an answer.\nALWAYS return a \"SOURCE\" part in your answer.\n\nQUESTION: What's a good movie about a robot to watch with my kid?\n=========\nTitle: A.I. Artificial Intelligence\nGenre: Drama,Sci-Fi\nDescription: A robotic boy, the first programmed to love, David (Haley Joel Osment) is adopted as a test case by a Cybertronics employee (Sam Robards) and his wife (Frances O'Connor). Though he gradually becomes their child, a series of unexpected circumstances make this life impossible for David. Without final acceptance by humans or machines, David embarks on a journey to discover where he truly belongs, uncovering a world in which the line between robot and machine is both vast and profoundly thin.\nIMDB link: https://www.imdb.com/title/tt0212720\n=========\nTitle: I, Robot\nGenre: Action,Mystery,Sci-Fi\nDescription: In 2035, highly intelligent robots fill public service positions throughout the world, operating under three rules to keep humans safe. Despite his dark history with robotics, Detective Del Spooner (Will Smith) investigates the alleged suicide of U.S. Robotics founder Alfred Lanning (James Cromwell) and believes that a human-like robot (Alan Tudyk) murdered him. With the help of a robot expert (Bridget Moynahan), Spooner discovers a conspiracy that may enslave the human race.\nIMDB link: https://www.imdb.com/title/tt0343818\n=========\nTitle: The Iron Giant\nGenre: Action,Adventure,Animation\nDescription: In this animated adaptation of Ted Hughes' Cold War fable, a giant alien robot (Vin Diesel) crash-lands near the small town of Rockwell, Maine, in 1957. Exploring the area, a local 9-year-old boy, Hogarth, discovers the robot, and soon forms an unlikely friendship with him. When a paranoid government agent, Kent Mansley, becomes determined to destroy the robot, Hogarth and beatnik Dean McCoppin (Harry Connick Jr.) must do what they can to save the misunderstood machine.\nIMDB link: https://www.imdb.com/title/tt0129167\n=========\nFINAL ANSWER: 'The Iron Giant' is an animated movie about a friendship between a robot and a kid. It would be a good movie to watch with a kid.\nSOURCE: https://www.imdb.com/title/tt0129167\n\nQUESTION: "

/-- The text of `QUESTION_PROMPT` between the `question` and `summaries`
placeholders. -/
def qpMid : String :=
  "\n=========\n"

/-- The text of `QUESTION_PROMPT` after the `summaries` placeholder. -/
def qpTail : String :=
  "\nFINAL ANSWER:"

/-- Substitution of `question` and `summaries` into `QUESTION_PROMPT`. -/
def questionPromptOf (question summaries : String) : String :=
  qpHead ++ question ++ qpMid ++ summaries ++ qpTail

/-- The Prompt Assembler's output: the assembled prompt, the documents kept,
and the flag telling the caller whether documents were dropped. -/
structure AssembleResult where
  prompt : String
  kept : List Document
  dropped : Bool
deriving DecidableEq

/-- Largest `m ≤ n` such that the summaries of the first `m` documents fit
the character budget (0 always fits: the empty summaries block). -/
def fitCount (budget : Nat) (docs : List Document) : Nat → Nat
  | 0 => 0
  | n + 1 =>
      if (summariesOf (docs.take (n + 1))).length ≤ budget then n + 1
      else fitCount budget docs n

/-- Modelled from the spec: §4.3 `Prompt Assembler.assemble` (the notebook
delegates assembly to langchain's stuff chain).  Documents are rendered in
retriever order; if the concatenated summaries would exceed the character
budget, documents are dropped from the end of the sequence until they fit,
and the `dropped` flag reports the truncation to the caller. -/
def assemble (question : String) (docs : List Document) (budget : Nat) : AssembleResult :=
  let keep := fitCount budget docs docs.length
  { prompt := questionPromptOf question (summariesOf (docs.take keep))
    kept := docs.take keep
    dropped := decide (keep < docs.length) }

/-- The fixed source label the EXTRACTING step splits on. -/
def sourceLabel : String := "SOURCE:"

/-- First occurrence of `sep` in a character list: `some (before, after)`
with the separator removed, or `none` when `sep` does not occur. -/
def breakOnLabel (sep : List Char) : List Char → Option (List Char × List Char)
  | [] => none
  | c :: cs =>
      if sep.isPrefixOf (c :: cs) then some ([], (c :: cs).drop sep.length)
      else
        match breakOnLabel sep cs with
        | some (a, b) => some (c :: a, b)
        | none => none

/-- The Answer Chain's structured result: answer body, cited sources, and
the `unsourced` flag. -/
structure Answer where
  body : String
  sources : List String
  unsourced : Bool
deriving DecidableEq

/-- Modelled from the spec: §4.4 step 4 (EXTRACTING), which langchain
performs outside the notebook.  The model output is split on the fixed
`SOURCE:` label; with no label the whole output is the body, the source set
is empty and the Answer is flagged `unsourced`. -/
def extractAnswer (raw : String) : Answer :=
  match breakOnLabel sourceLabel.data raw.data with
  | none => { body := raw, sources := [], unsourced := true }
  | some (a, b) => { body := String.mk a, sources := [(String.mk b).trim], unsourced := false }

/-- Dot product of two rational vectors. -/
def dot (u v : Vec) : ℚ :=
  (List.zipWith (fun a b => a * b) u v).sum

/-- A computable sort key that orders stored vectors by descending cosine
similarity to the query `q` without taking square roots: the sign of
`dot q v` together with its square divided by the squared norm of `v`. -/
def simKey (q v : Vec) : ℚ :=
  if 0 ≤ dot q v then dot q v ^ 2 / dot v v else -(dot q v ^ 2 / dot v v)

/-- The retrieval order: `d` before `e` when `d`'s stored vector is at most
as far (in cosine distance) from the query as `e`'s. -/
def distLE (q : Vec) (d e : IndexEntry) : Prop :=
  simKey q e.vector ≤ simKey q d.vector

instance (q : Vec) : DecidableRel (distLE q) :=
  fun d e => inferInstanceAs (Decidable (simKey q e.vector ≤ simKey q d.vector))

instance (q : Vec) : IsTotal IndexEntry (distLE q) :=
  ⟨fun a b => le_total (simKey q b.vector) (simKey q a.vector)⟩

instance (q : Vec) : IsTrans IndexEntry (distLE q) :=
  ⟨fun _ _ _ hab hbc => le_trans hbc hab⟩

/-- Modelled from the spec: §4.2 step 2, the Vector Store's top-`k` query by
smallest cosine distance (the nearest-neighbour search happens inside
Pinecone).  Entries are sorted by ascending distance (ties kept in store
order by stability of insertion sort) and the first `k` are returned. -/
def retrieveVec (qv : Vec) (k : Nat) (store : List IndexEntry) : List IndexEntry :=
  (store.insertionSort (distLE qv)).take k

/-- Modelled from the spec: §4.2 `Retriever.retrieve` — embed the query via
the Embedding Client, surface its failure to the caller, then query the
store and return the Documents in ascending distance order. -/
def retrieve (embed : String → Except EmbeddingServiceError Vec) (q : String) (k : Nat)
    (store : List IndexEntry) : Except EmbeddingServiceError (List Document) :=
  match embed q with
  | .error e => .error e
  | .ok qv => .ok ((retrieveVec qv k store).map IndexEntry.doc)

/-- Cosine similarity of two vectors, over the reals. -/
noncomputable def cosineSim (u v : Vec) : ℝ :=
  ((dot u v : ℚ) : ℝ) / (Real.sqrt ((dot u u : ℚ) : ℝ) * Real.sqrt ((dot v v : ℚ) : ℝ))

/-- Cosine distance: 1 minus cosine similarity. -/
noncomputable def cosineDistance (u v : Vec) : ℝ :=
  1 - cosineSim u v

/-- The error kind a failed chain invocation carries. -/
inductive ErrorKind where
  | embeddingService
  | storeUnavailable
  | completionService
deriving DecidableEq

/-- The terminal state of one `answer()` invocation. -/
inductive ChainOutcome where
  | done : Answer → ChainOutcome
  | failed : ErrorKind → ChainOutcome
deriving DecidableEq

/-- Modelled from the spec: §4.4 the Answer Chain state machine
(RETRIEVING → ASSEMBLING → COMPLETING → EXTRACTING → DONE), which langchain's
`RetrievalQAWithSourcesChain` runs outside the notebook.  The returned
Boolean records whether the Language Model's `complete` operation was
attempted during the invocation. -/
def answer (embed : String → Except EmbeddingServiceError Vec)
    (complete : String → Except CompletionServiceError String)
    (store : List IndexEntry) (k : Nat) (budget : Nat) (question : String) :
    ChainOutcome × Bool :=
  match retrieve embed question k store with
  | .error _ => (.failed .embeddingService, false)
  | .ok docs =>
      match complete (assemble question docs budget).prompt with
      | .error _ => (.failed .completionService, true)
      | .ok raw => (.done (extractAnswer raw), true)

lemma append_newline_genre (s : String) :
    "\n" ++ ("Genre: " ++ s) = "\nGenre: " ++ s := by
  rw [← String.append_assoc]
  rfl

lemma append_newline_description (s : String) :
    "\n" ++ ("Description: " ++ s) = "\nDescription: " ++ s := by
  rw [← String.append_assoc]
  rfl

/-- C4: for every record holding a title and an identifier, the built
document's content is a `Title:` line, a `Genre:` line with the genres
comma-joined in original order, and a `Description:` line with the full
description, in that fixed order. -/
theorem buildOne_labeled_lines (r : SourceRecord) (t i : String)
    (ht : r.title = some t) (hi : r.identifier = some i) :
    buildOne r = Except.ok
      { content := ("Title: " ++ t) ++ "\n" ++ ("Genre: " ++ joinGenres r.genres) ++ "\n" ++
          ("Description: " ++ r.description),
        source := "https://www.imdb.com/title/" ++ i ++ "/" } := by
  simp only [buildOne, ht, hi, pageContent, sourceUri, String.append_assoc,
    append_newline_genre, append_newline_description]

/-- A sample valid record used by the builder witness. -/
def northmanRecord : SourceRecord :=
  { identifier := some "tt11138512", title := some "The Northman",
    description := "An epic viking tale.", genres := ["Action", "History"],
    titleType := "movie" }

theorem buildOne_labeled_lines_witness :
    northmanRecord.title = some "The Northman" ∧
    buildOne northmanRecord = Except.ok
      { content := ("Title: " ++ "The Northman") ++ "\n" ++
          ("Genre: " ++ joinGenres ["Action", "History"]) ++ "\n" ++
          ("Description: " ++ "An epic viking tale."),
        source := "https://www.imdb.com/title/" ++ "tt11138512" ++ "/" } :=
  ⟨rfl, buildOne_labeled_lines _ _ _ rfl rfl⟩

lemma build_cons_error {r : SourceRecord} {rs : List SourceRecord} {e : ValidationError}
    (h : buildOne r = .error e) : build (r :: rs) = .error e := by
  rw [build, h]

lemma build_cons_ok {r : SourceRecord} {rs : List SourceRecord} {d : Document}
    (h : buildOne r = .ok d) :
    build (r :: rs) =
      match build rs with
      | .error e => .error e
      | .ok ds => .ok (d :: ds) := by
  rw [build, h]

/-- C7: `build` succeeds exactly when every record carries both a title and
an identifier; a record lacking either makes it fail with a
`ValidationError`. -/
theorem build_ok_iff (rs : List SourceRecord) :
    buildSucceeds rs = true ↔ ∀ r ∈ rs, r.title ≠ none ∧ r.identifier ≠ none := by
  induction rs with
  | nil => simp [buildSucceeds, build]
  | cons r rs ih =>
      rcases ht : r.title with _ | t
      · apply iff_of_false
        · rw [buildSucceeds, build_cons_error (e := .missingTitle) (by rw [buildOne, ht])]
          simp
        · intro h
          exact (h r (List.mem_cons_self r rs)).1 ht
      · rcases hi : r.identifier with _ | i
        · apply iff_of_false
          · rw [buildSucceeds,
              build_cons_error (e := .missingIdentifier) (by rw [buildOne, ht, hi])]
            simp
          · intro h
            exact (h r (List.mem_cons_self r rs)).2 hi
        · have hb : buildOne r = .ok
              { content := pageContent t r.genres r.description, source := sourceUri i } := by
            rw [buildOne, ht, hi]
          rw [buildSucceeds, build_cons_ok hb]
          cases hrs : build rs with
          | error e =>
              apply iff_of_false
              · simp
              · intro h
                have : buildSucceeds rs = true := ih.mpr fun x hx => h x (List.mem_cons_of_mem r hx)
                rw [buildSucceeds, hrs] at this
                exact Bool.noConfusion this
          | ok ds =>
              have hsucc : buildSucceeds rs = true := by rw [buildSucceeds, hrs]
              apply iff_of_true
              · simp
              · intro x hx
                rcases List.mem_cons.mp hx with hx | hx
                · subst hx
                  exact ⟨by rw [ht]; exact fun h => Option.noConfusion h,
                         by rw [hi]; exact fun h => Option.noConfusion h⟩
                · exact (ih.mp hsucc) x hx

lemma breakOnLabel_eq_none (sep : List Char) (l : List Char) (h : ¬ sep <:+: l) :
    breakOnLabel sep l = none := by
  induction l with
  | nil => rfl
  | cons c cs ih =>
      have hp : ¬ sep.isPrefixOf (c :: cs) = true := by
        intro hp
        exact h (List.IsPrefix.isInfix (List.isPrefixOf_iff_prefix.mp hp))
      have hrec := ih fun hi => h (List.infix_cons hi)
      simp [breakOnLabel, hp, hrec]

/-- C5: when the model output contains no `SOURCE:` label, the EXTRACTING
step returns a successful Answer whose body is the whole output, whose
source set is empty, and which is flagged `unsourced`. -/
theorem extractAnswer_no_label (raw : String) (h : ¬ sourceLabel.data <:+: raw.data) :
    extractAnswer raw = { body := raw, sources := [], unsourced := true } := by
  unfold extractAnswer
  rw [breakOnLabel_eq_none _ _ h]

theorem extractAnswer_no_label_witness :
    ¬ sourceLabel.data <:+: "I do not know.".data ∧
    extractAnswer "I do not know." =
      { body := "I do not know.", sources := [], unsourced := true } :=
  ⟨by decide, extractAnswer_no_label _ (by decide)⟩

/-- C6: when the Embedding Client fails during RETRIEVING, the chain
terminates in the FAILED state carrying the embedding-service error kind,
and the Language Model's `complete` operation is never attempted (the
second component of `answer` records whether it was). -/
theorem answer_embedding_failure (embed : String → Except EmbeddingServiceError Vec)
    (complete : String → Except CompletionServiceError String)
    (store : List IndexEntry) (k budget : Nat) (question : String)
    (e : EmbeddingServiceError) (h : embed question = .error e) :
    answer embed complete store k budget question =
      (.failed .embeddingService, false) := by
  unfold answer retrieve
  rw [h]

theorem answer_embedding_failure_witness :
    (fun _ : String => (Except.error EmbeddingServiceError.timeout :
        Except EmbeddingServiceError Vec)) "Q" = Except.error EmbeddingServiceError.timeout ∧
    answer (fun _ => .error .timeout) (fun _ => .ok "an answer") [] 4 1000 "Q" =
      (.failed .embeddingService, false) :=
  ⟨rfl, answer_embedding_failure _ _ _ _ _ _ _ rfl⟩

/-- C8: retrieval against an empty store returns the empty result (no
error), for every query and every positive `k`, whenever the query embedding
itself succeeds. -/
theorem retrieve_empty_store (embed : String → Except EmbeddingServiceError Vec)
    (q : String) (k : Nat) (qv : Vec) (_hk : 0 < k) (h : embed q = .ok qv) :
    retrieve embed q k [] = .ok [] := by
  unfold retrieve
  rw [h]
  simp [retrieveVec]

theorem retrieve_empty_store_witness :
    0 < 4 ∧
    (fun _ : String => (Except.ok [(1 : ℚ)] : Except EmbeddingServiceError Vec)) "Q" =
      Except.ok [(1 : ℚ)] ∧
    retrieve (fun _ => .ok [(1 : ℚ)]) "Q" 4 [] = .ok [] :=
  ⟨by decide, rfl, retrieve_empty_store _ _ _ _ (by decide) rfl⟩

/-- C10: when the index already holds at least one vector, ingestion reuses
the existing index and performs no upsert: the store is returned entirely
unchanged, whatever documents are supplied. -/
theorem ingest_skip_when_nonempty (embed : Document → Vec) (docs : List Document)
    (store : List IndexEntry) (h : 0 < totalVectorCount store) :
    ingest embed docs store = store := by
  unfold ingest
  rw [if_pos h]

/-- A one-entry store used by the ingestion witness. -/
def sampleStore : List IndexEntry :=
  [{ key := "k", vector := [(1 : ℚ)], doc := { content := "c", source := "s" } }]

theorem ingest_skip_when_nonempty_witness :
    0 < totalVectorCount sampleStore ∧
    ingest (fun _ => [(1 : ℚ)]) [{ content := "new", source := "u" }] sampleStore =
      sampleStore :=
  ⟨by decide, ingest_skip_when_nonempty _ _ _ (by decide)⟩

lemma summaries_fitCount_le (b : Nat) (docs : List Document) (n : Nat) :
    (summariesOf (docs.take (fitCount b docs n))).length ≤ b := by
  induction n with
  | zero =>
      show (summariesOf (docs.take 0)).length ≤ b
      exact Nat.zero_le b
  | succ n ih =>
      rw [fitCount]
      split
      · next h => exact h
      · exact ih

/-- C1 (amended): the summaries block of the assembled prompt never exceeds
the configured character budget — so the whole prompt never exceeds the
budget plus the fixed size of the question template with the question
substituted; the kept documents are a prefix of the retriever-ordered input
(so the dropped documents are exactly its lowest-ranked suffix); and the
`dropped` flag tells the caller exactly when documents were dropped. -/
theorem assemble_bounded_suffix_flag (q : String) (docs : List Document) (b : Nat) :
    (summariesOf (assemble q docs b).kept).length ≤ b ∧
    (assemble q docs b).prompt.length ≤ b + (questionPromptOf q "").length ∧
    (assemble q docs b).kept <+: docs ∧
    ((assemble q docs b).dropped = true ↔ (assemble q docs b).kept ≠ docs) := by
  refine ⟨summaries_fitCount_le b docs docs.length, ?_, List.take_prefix _ _, ?_⟩
  · have h1 := summaries_fitCount_le b docs docs.length
    have h2 : (assemble q docs b).prompt =
        questionPromptOf q (summariesOf (docs.take (fitCount b docs docs.length))) := rfl
    rw [h2]
    simp only [questionPromptOf, String.length_append]
    have h0 : ("" : String).length = 0 := rfl
    omega
  · show decide (fitCount b docs docs.length < docs.length) = true ↔
      docs.take (fitCount b docs docs.length) ≠ docs
    rw [decide_eq_true_iff, Ne, List.take_eq_self_iff]
    omega

/-- C1 (counterexample): the assembled prompt itself can exceed the budget —
the question template and the question are embedded verbatim, so with budget
0 the prompt is still non-empty. -/
theorem assemble_budget_counterexample :
    ¬ ((assemble "q" [] 0).prompt.length ≤ 0) := by
  have h : (assemble "q" [] 0).prompt = qpHead ++ "q" ++ qpMid ++ "" ++ qpTail := rfl
  rw [h]
  simp only [String.length_append]
  have h1 : ("q" : String).length = 1 := rfl
  omega

/-- Split a character list at its first newline: the part before it and the
part after it (no newline: the whole list and `[]`). -/
def breakOnNewline : List Char → List Char × List Char
  | [] => ([], [])
  | c :: cs =>
      if c = '\n' then ([], cs)
      else
        let p := breakOnNewline cs
        (c :: p.1, p.2)

/-- Split a character list on commas, keeping empty pieces. -/
def splitCommas : List Char → List (List Char)
  | [] => [[]]
  | c :: cs =>
      if c = ',' then [] :: splitCommas cs
      else
        match splitCommas cs with
        | [] => [[c]]
        | g :: gs => (c :: g) :: gs

/-- Remove `label` from the front of `s`, or fail. -/
def stripLabel (label s : List Char) : Option (List Char) :=
  if label.isPrefixOf s then some (s.drop label.length) else none

/-- The labeled source line the `DOCUMENT_PROMPT` template places after the
content block. -/
def imdbLabel : String := "\nIMDB link: "

/-- Modelled from the spec: re-parsing of a rendered document back into its
title, genre list and description (the inverse direction the round-trip
property of §8 asks for; no parser exists in the notebook).  Strips the
`Title:` label, cuts the title at the first newline, strips the `Genre:`
label, cuts the genre line at the next newline and splits it on commas,
strips the `Description:` label, and cuts the description at the first
occurrence of the source-line label. -/
def parseRendered (s : String) : Option (String × List String × String) :=
  (stripLabel "Title: ".data s.data).bind fun r0 =>
    (stripLabel "Genre: ".data (breakOnNewline r0).2).bind fun r2 =>
      (stripLabel "Description: ".data (breakOnNewline r2).2).bind fun r3 =>
        (breakOnLabel imdbLabel.data r3).map fun p =>
          (String.mk (breakOnNewline r0).1,
            (splitCommas (breakOnNewline r2).1).map String.mk,
            String.mk p.1)

lemma stripLabel_append (p s : List Char) : stripLabel p (p ++ s) = some s := by
  unfold stripLabel
  rw [if_pos (List.isPrefixOf_iff_prefix.mpr (List.prefix_append p s)), List.drop_left]

lemma breakOnNewline_append (a : List Char) (h : '\n' ∉ a) (b : List Char) :
    breakOnNewline (a ++ '\n' :: b) = (a, b) := by
  induction a with
  | nil => simp [breakOnNewline]
  | cons c cs ih =>
      have hc : ¬ c = '\n' := fun e => h (e ▸ List.mem_cons_self c cs)
      have hrec := ih fun hm => h (List.mem_cons_of_mem c hm)
      simp [breakOnNewline, hc, hrec]

lemma splitCommas_no_comma (l : List Char) (h : ',' ∉ l) : splitCommas l = [l] := by
  induction l with
  | nil => rfl
  | cons c cs ih =>
      have hc : ¬ c = ',' := fun e => h (e ▸ List.mem_cons_self c cs)
      have hrec := ih fun hm => h (List.mem_cons_of_mem c hm)
      simp [splitCommas, hc, hrec]

lemma splitCommas_append (a : List Char) (h : ',' ∉ a) (b : List Char) :
    splitCommas (a ++ ',' :: b) = a :: splitCommas b := by
  induction a with
  | nil => simp [splitCommas]
  | cons c cs ih =>
      have hc : ¬ c = ',' := fun e => h (e ▸ List.mem_cons_self c cs)
      have hrec := ih fun hm => h (List.mem_cons_of_mem c hm)
      simp [splitCommas, hc, hrec]

lemma joinGenres_no_newline (gs : List String) (h : ∀ g ∈ gs, '\n' ∉ g.data) :
    '\n' ∉ (joinGenres gs).data := by
  induction gs with
  | nil => intro hm; exact absurd hm (List.not_mem_nil _)
  | cons g gs ih =>
      cases gs with
      | nil => exact h g (List.mem_cons_self g [])
      | cons g' rest =>
          have hdata : (joinGenres (g :: g' :: rest)).data =
              g.data ++ ',' :: (joinGenres (g' :: rest)).data := by
            show (g ++ "," ++ joinGenres (g' :: rest)).data = _
            simp [String.data_append]
          rw [hdata]
          intro hm
          rcases List.mem_append.mp hm with hm | hm
          · exact h g (List.mem_cons_self g _) hm
          · rcases List.mem_cons.mp hm with hm | hm
            · exact absurd hm (by decide)
            · exact ih (fun x hx => h x (List.mem_cons_of_mem g hx)) hm

lemma splitCommas_joinGenres (gs : List String) (hne : gs ≠ [])
    (h : ∀ g ∈ gs, ',' ∉ g.data) :
    splitCommas (joinGenres gs).data = gs.map String.data := by
  induction gs with
  | nil => exact absurd rfl hne
  | cons g gs ih =>
      cases gs with
      | nil =>
          show splitCommas g.data = [g.data]
          exact splitCommas_no_comma g.data (h g (List.mem_cons_self g []))
      | cons g' rest =>
          have hdata : (joinGenres (g :: g' :: rest)).data =
              g.data ++ ',' :: (joinGenres (g' :: rest)).data := by
            show (g ++ "," ++ joinGenres (g' :: rest)).data = _
            simp [String.data_append]
          rw [hdata, splitCommas_append g.data (h g (List.mem_cons_self g _)) _]
          rw [ih (by simp) fun x hx => h x (List.mem_cons_of_mem g hx)]
          rfl

lemma prefix_append_split {α : Type} {l a b : List α} (h : l <+: a ++ b) :
    l <+: a ∨ ∃ l₂, l = a ++ l₂ ∧ l₂ <+: b := by
  rcases h with ⟨t, ht⟩
  rcases le_or_lt l.length a.length with hle | hlt
  · left
    have h1 : l = (a ++ b).take l.length := by
      rw [← ht, List.take_append_eq_append_take, List.take_length,
        Nat.sub_self, List.take_zero, List.append_nil]
    have h2 : (a ++ b).take l.length = a.take l.length := by
      rw [List.take_append_eq_append_take, Nat.sub_eq_zero_of_le hle,
        List.take_zero, List.append_nil]
    rw [h1, h2]
    exact List.take_prefix _ _
  · right
    have ha : a = l.take a.length := by
      have h1 : (a ++ b).take a.length = a := List.take_left a b
      rw [← ht, List.take_append_eq_append_take,
        Nat.sub_eq_zero_of_le (Nat.le_of_lt hlt), List.take_zero, List.append_nil] at h1
      exact h1.symm
    refine ⟨l.drop a.length, ?_, ?_⟩
    · conv_lhs => rw [← List.take_append_drop a.length l]
      rw [← ha]
    · have hb : a ++ b = a ++ (l.drop a.length ++ t) := by
        rw [← List.append_assoc]
        nth_rewrite 2 [ha]
        rw [List.take_append_drop, ht]
      exact ⟨t, (List.append_cancel_left hb).symm⟩

lemma breakOnLabel_prefix_exact (c : Char) (rest : List Char) (hr : c ∉ rest)
    (a : List Char) (ha : ¬ (c :: rest) <:+: a) (b : List Char) :
    breakOnLabel (c :: rest) (a ++ ((c :: rest) ++ b)) = some (a, b) := by
  induction a with
  | nil =>
      rw [List.nil_append]
      show breakOnLabel (c :: rest) (c :: (rest ++ b)) = some ([], b)
      rw [breakOnLabel]
      have hc : (c :: rest).isPrefixOf (c :: (rest ++ b)) = true :=
        List.isPrefixOf_iff_prefix.mpr ⟨b, rfl⟩
      rw [if_pos hc]
      have hd : (c :: (rest ++ b)).drop (c :: rest).length = b := by
        show ((c :: rest) ++ b).drop (c :: rest).length = b
        exact List.drop_left _ _
      rw [hd]
  | cons x a' ih =>
      have hnp : ¬ (c :: rest).isPrefixOf (x :: (a' ++ ((c :: rest) ++ b))) = true := by
        intro hp
        have hp' := List.isPrefixOf_iff_prefix.mp hp
        have : x :: (a' ++ ((c :: rest) ++ b)) = (x :: a') ++ ((c :: rest) ++ b) := rfl
        rw [this] at hp'
        rcases prefix_append_split hp' with hp2 | ⟨l₂, he, hp2⟩
        · exact ha (List.IsPrefix.isInfix hp2)
        · rcases Decidable.em (l₂ = []) with h0 | h0
          · subst h0
            rw [List.append_nil] at he
            exact ha (he ▸ List.infix_refl _)
          · rcases List.exists_cons_of_ne_nil h0 with ⟨y, l₂', rfl⟩
            have hy : y = c := by
              have hp3 : y :: l₂' <+: c :: (rest ++ b) := hp2
              rcases hp3 with ⟨t2, ht2⟩
              have h1 : y :: (l₂' ++ t2) = c :: (rest ++ b) := ht2
              simp only [List.cons.injEq] at h1
              exact h1.1
            have hrest : rest = a' ++ y :: l₂' := by
              have h1 : c :: rest = x :: (a' ++ y :: l₂') := he
              simp only [List.cons.injEq] at h1
              exact h1.2
            apply hr
            rw [← hy, hrest]
            exact List.mem_append_right a' (List.mem_cons_self y l₂')
      have hrec := ih fun hi => ha (List.infix_cons hi)
      show breakOnLabel (c :: rest) (x :: (a' ++ ((c :: rest) ++ b))) = some (x :: a', b)
      rw [breakOnLabel, if_neg hnp, hrec]

/-- C3 (amended): rendering a built document through the document template
and re-parsing recovers title, genre list and description exactly, for every
document whose title holds no newline, whose genre list is non-empty with
comma-free and newline-free genres, and whose description does not contain
the source-line label. -/
theorem renderDoc_parse_roundtrip (t : String) (gs : List String) (d src : String)
    (ht : '\n' ∉ t.data) (hne : gs ≠ [])
    (hg : ∀ g ∈ gs, ',' ∉ g.data ∧ '\n' ∉ g.data)
    (hd : ¬ imdbLabel.data <:+: d.data) :
    parseRendered (renderDoc { content := pageContent t gs d, source := src }) =
      some (t, gs, d) := by
  have hJn : '\n' ∉ (joinGenres gs).data :=
    joinGenres_no_newline gs fun g hgm => (hg g hgm).2
  have hsep : imdbLabel.data = '\n' :: "IMDB link: ".data := rfl
  have hd' : ¬ ('\n' :: "IMDB link: ".data) <:+: d.data := by
    rw [← hsep]
    exact hd
  have hdata : (renderDoc { content := pageContent t gs d, source := src }).data =
      "Title: ".data ++ (t.data ++ '\n' ::
        ("Genre: ".data ++ ((joinGenres gs).data ++ '\n' ::
          ("Description: ".data ++ (d.data ++ (('\n' :: "IMDB link: ".data) ++
            (src.data ++ "\n=========".data))))))) := by
    show (pageContent t gs d ++ "\nIMDB link: " ++ src ++ "\n=========").data = _
    unfold pageContent
    simp only [String.data_append, List.append_assoc]
    rfl
  unfold parseRendered
  rw [hdata, hsep]
  simp only [stripLabel_append, Option.some_bind, breakOnNewline_append t.data ht,
    breakOnNewline_append (joinGenres gs).data hJn,
    breakOnLabel_prefix_exact '\n' ("IMDB link: ".data) (by decide) d.data hd',
    Option.map_some']
  rw [splitCommas_joinGenres gs hne fun g hgm => (hg g hgm).1]
  rw [List.map_map]
  have hmk : (String.mk ∘ String.data) = id := funext fun _ => rfl
  rw [hmk, List.map_id]

theorem renderDoc_parse_roundtrip_witness :
    ('\n' ∉ "T".data) ∧ (["G1", "G2"] : List String) ≠ [] ∧
    (∀ g ∈ (["G1", "G2"] : List String), ',' ∉ g.data ∧ '\n' ∉ g.data) ∧
    ¬ imdbLabel.data <:+: "D".data ∧
    parseRendered (renderDoc { content := pageContent "T" ["G1", "G2"] "D", source := "u" }) =
      some ("T", ["G1", "G2"], "D") :=
  ⟨by decide, by decide, by decide, by decide,
    renderDoc_parse_roundtrip _ _ _ _ (by decide) (by decide) (by decide) (by decide)⟩

/-- C3 (counterexample): a builder document whose title contains a newline
does not round-trip — parsing the rendered text cannot recover the original
title, genre list and description. -/
theorem renderDoc_parse_counterexample :
    parseRendered (renderDoc { content := pageContent "A\nB" ["G"] "D", source := sourceUri "x" }) ≠
      some ("A\nB", ["G"], "D") := by
  decide

/-- The fixed separator token of the `DOCUMENT_PROMPT` template: nine `=`
characters. -/
def separator : String := "========="

lemma infix_append_split {α : Type} {l a b : List α} (h : l <:+: a ++ b) :
    l <:+: a ∨ l <:+: b ∨
      ∃ l₁ l₂, l = l₁ ++ l₂ ∧ l₁ ≠ [] ∧ l₂ ≠ [] ∧ l₁ <:+ a ∧ l₂ <+: b := by
  induction a with
  | nil =>
      right
      left
      simpa using h
  | cons x a' ih =>
      rcases List.infix_cons_iff.mp h with hp | hi
      · have hp' : l <+: (x :: a') ++ b := hp
        rcases prefix_append_split hp' with h1 | ⟨l₂, he, h2⟩
        · exact Or.inl (List.IsPrefix.isInfix h1)
        · rcases eq_or_ne l₂ [] with h0 | h0
          · subst h0
            rw [List.append_nil] at he
            exact Or.inl (he ▸ List.infix_refl _)
          · exact Or.inr (Or.inr
              ⟨x :: a', l₂, he, List.cons_ne_nil x a', h0, List.suffix_refl _, h2⟩)
      · rcases ih hi with h1 | h1 | ⟨l₁, l₂, he, hn1, hn2, hsuf, hpre⟩
        · exact Or.inl (List.infix_cons h1)
        · exact Or.inr (Or.inl h1)
        · exact Or.inr (Or.inr
            ⟨l₁, l₂, he, hn1, hn2, hsuf.trans (List.suffix_cons x a'), hpre⟩)

lemma no_eq_run_suffix {X l₁ : List Char} (hX : '=' ∉ X) (h1 : l₁ <:+ X)
    (hne : l₁ ≠ []) (hall : ∀ x ∈ l₁, x = '=') : False := by
  rcases List.exists_mem_of_ne_nil l₁ hne with ⟨y, hy⟩
  have : y ∈ X := h1.subset hy
  rw [hall y hy] at this
  exact hX this

lemma no_eq_run_head {y : Char} {Y l₂ : List Char} (hy : y ≠ '=') (h2 : l₂ <+: y :: Y)
    (hne : l₂ ≠ []) (hall : ∀ x ∈ l₂, x = '=') : False := by
  rcases List.exists_cons_of_ne_nil hne with ⟨z, l₂', rfl⟩
  have hz : z = y := (List.cons_prefix_cons.mp h2).1
  have : z = '=' := hall z (List.mem_cons_self z l₂')
  exact hy (hz ▸ this)

lemma separator_all_eq : ∀ x ∈ separator.data, x = '=' := by decide

lemma separator_not_infix_joinGenres (gs : List String)
    (h : ∀ g ∈ gs, ¬ separator.data <:+: g.data) :
    ¬ separator.data <:+: (joinGenres gs).data := by
  induction gs with
  | nil =>
      intro hi
      have hnil : separator.data <:+: ([] : List Char) := hi
      have h0 : separator.data = [] := by simpa using hnil
      exact absurd h0 (by decide)
  | cons g gs ih =>
      cases gs with
      | nil => exact h g (List.mem_cons_self g [])
      | cons g' rest =>
          have hdata : (joinGenres (g :: g' :: rest)).data =
              g.data ++ ',' :: (joinGenres (g' :: rest)).data := by
            show (g ++ "," ++ joinGenres (g' :: rest)).data = _
            simp [String.data_append]
          rw [hdata]
          intro hi
          rcases infix_append_split hi with h1 | h1 | ⟨l₁, l₂, he, hn1, hn2, hsuf, hpre⟩
          · exact h g (List.mem_cons_self g _) h1
          · rcases List.infix_cons_iff.mp h1 with h2 | h2
            · have hs : separator.data = '=' :: "========".data := rfl
              rw [hs] at h2
              exact absurd (List.cons_prefix_cons.mp h2).1 (by decide)
            · exact ih (fun x hx => h x (List.mem_cons_of_mem g hx)) h2
          · exact no_eq_run_head (by decide) hpre hn2
              fun x hx => separator_all_eq x (he ▸ List.mem_append_right l₁ hx)

/-- C9 (amended): the nine-character separator token does not occur in a
built document's content provided it occurs in none of the record's fields
(title, any genre, description); the builder inserts no `=` characters of
its own and its label boundaries interrupt any run of `=`. -/
theorem separator_not_in_content (t : String) (gs : List String) (d : String)
    (hT : ¬ separator.data <:+: t.data)
    (hG : ∀ g ∈ gs, ¬ separator.data <:+: g.data)
    (hD : ¬ separator.data <:+: d.data) :
    ¬ separator.data <:+: (pageContent t gs d).data := by
  have hdata : (pageContent t gs d).data =
      "Title: ".data ++ (t.data ++ ("\nGenre: ".data ++ ((joinGenres gs).data ++
        ("\nDescription: ".data ++ d.data)))) := by
    unfold pageContent
    simp only [String.data_append, List.append_assoc]
  rw [hdata]
  intro hi
  have hallS := separator_all_eq
  rcases infix_append_split hi with h1 | h1 | ⟨l₁, l₂, he, hn1, hn2, hsuf, hpre⟩
  · exact absurd h1 (by decide)
  rotate_left
  · exact no_eq_run_suffix (by decide) hsuf hn1
      fun x hx => hallS x (he ▸ List.mem_append_left l₂ hx)
  rcases infix_append_split h1 with h2 | h2 | ⟨l₁, l₂, he, hn1, hn2, hsuf, hpre⟩
  · exact hT h2
  rotate_left
  · have hng : ("\nGenre: ".data ++ ((joinGenres gs).data ++
        ("\nDescription: ".data ++ d.data))) =
        '\n' :: ("Genre: ".data ++ ((joinGenres gs).data ++
          ("\nDescription: ".data ++ d.data))) := rfl
    rw [hng] at hpre
    exact no_eq_run_head (by decide) hpre hn2
      fun x hx => hallS x (he ▸ List.mem_append_right l₁ hx)
  rcases infix_append_split h2 with h3 | h3 | ⟨l₁, l₂, he, hn1, hn2, hsuf, hpre⟩
  · exact absurd h3 (by decide)
  rotate_left
  · exact no_eq_run_suffix (by decide) hsuf hn1
      fun x hx => hallS x (he ▸ List.mem_append_left l₂ hx)
  rcases infix_append_split h3 with h4 | h4 | ⟨l₁, l₂, he, hn1, hn2, hsuf, hpre⟩
  · exact separator_not_infix_joinGenres gs hG h4
  rotate_left
  · have hnd : ("\nDescription: ".data ++ d.data) =
        '\n' :: ("Description: ".data ++ d.data) := rfl
    rw [hnd] at hpre
    exact no_eq_run_head (by decide) hpre hn2
      fun x hx => hallS x (he ▸ List.mem_append_right l₁ hx)
  rcases infix_append_split h4 with h5 | h5 | ⟨l₁, l₂, he, hn1, hn2, hsuf, hpre⟩
  · exact absurd h5 (by decide)
  · exact hD h5
  · exact no_eq_run_suffix (by decide) hsuf hn1
      fun x hx => hallS x (he ▸ List.mem_append_left l₂ hx)

theorem separator_not_in_content_witness :
    (¬ separator.data <:+: "The Northman".data) ∧
    (∀ g ∈ (["Action", "History"] : List String), ¬ separator.data <:+: g.data) ∧
    (¬ separator.data <:+: "An epic viking tale.".data) ∧
    ¬ separator.data <:+: (pageContent "The Northman" ["Action", "History"]
      "An epic viking tale.").data :=
  ⟨by decide, by decide, by decide,
    separator_not_in_content _ _ _ (by decide) (by decide) (by decide)⟩

/-- C9 (counterexample): the Document Builder does not strip the separator —
a record whose description contains the nine-character token yields a
content field containing it, so the delimiter invariant is not guaranteed
for every document. -/
theorem separator_in_content_counterexample :
    separator.data <:+: (pageContent "T" ["G"] "=========").data := by
  decide

lemma sq_div_le_sq_div_iff {x y V W : ℝ} (hW : 0 < W) (hV : 0 < V)
    (hx : 0 ≤ x) (hy : 0 ≤ y) :
    x / Real.sqrt W ≤ y / Real.sqrt V ↔ x ^ 2 / W ≤ y ^ 2 / V := by
  have hsW : 0 < Real.sqrt W := Real.sqrt_pos.mpr hW
  have hsV : 0 < Real.sqrt V := Real.sqrt_pos.mpr hV
  rw [div_le_div_iff₀ hsW hsV, div_le_div_iff₀ hW hV]
  rw [mul_self_le_mul_self_iff (mul_nonneg hx hsV.le) (mul_nonneg hy hsW.le)]
  rw [show x * Real.sqrt V * (x * Real.sqrt V) = x ^ 2 * (Real.sqrt V * Real.sqrt V) by ring]
  rw [show y * Real.sqrt W * (y * Real.sqrt W) = y ^ 2 * (Real.sqrt W * Real.sqrt W) by ring]
  rw [Real.mul_self_sqrt hV.le, Real.mul_self_sqrt hW.le]

lemma cosineSim_le_iff (q v w : Vec) (hq : 0 < dot q q) (hv : 0 < dot v v)
    (hw : 0 < dot w w) :
    cosineSim q w ≤ cosineSim q v ↔ simKey q w ≤ simKey q v := by
  have hQq : (0 : ℝ) < ((dot q q : ℚ) : ℝ) := by exact_mod_cast hq
  have hVq : (0 : ℝ) < ((dot v v : ℚ) : ℝ) := by exact_mod_cast hv
  have hWq : (0 : ℝ) < ((dot w w : ℚ) : ℝ) := by exact_mod_cast hw
  have hQR : (0 : ℝ) < Real.sqrt ((dot q q : ℚ) : ℝ) := Real.sqrt_pos.mpr hQq
  have hVR : (0 : ℝ) < Real.sqrt ((dot v v : ℚ) : ℝ) := Real.sqrt_pos.mpr hVq
  have hWR : (0 : ℝ) < Real.sqrt ((dot w w : ℚ) : ℝ) := Real.sqrt_pos.mpr hWq
  unfold cosineSim simKey
  have hfw : ((dot q w : ℚ) : ℝ) /
      (Real.sqrt ((dot q q : ℚ) : ℝ) * Real.sqrt ((dot w w : ℚ) : ℝ)) =
      (((dot q w : ℚ) : ℝ) / Real.sqrt ((dot w w : ℚ) : ℝ)) /
        Real.sqrt ((dot q q : ℚ) : ℝ) := by
    rw [div_div, mul_comm]
  have hfv : ((dot q v : ℚ) : ℝ) /
      (Real.sqrt ((dot q q : ℚ) : ℝ) * Real.sqrt ((dot v v : ℚ) : ℝ)) =
      (((dot q v : ℚ) : ℝ) / Real.sqrt ((dot v v : ℚ) : ℝ)) /
        Real.sqrt ((dot q q : ℚ) : ℝ) := by
    rw [div_div, mul_comm]
  rw [hfw, hfv, div_le_div_iff_of_pos_right hQR]
  rcases le_or_lt 0 (dot q v) with ha | ha
  · rcases le_or_lt 0 (dot q w) with hb | hb
    · rw [if_pos ha, if_pos hb]
      rw [sq_div_le_sq_div_iff hWq hVq (by exact_mod_cast hb) (by exact_mod_cast ha)]
      constructor
      · intro h
        exact_mod_cast h
      · intro h
        exact_mod_cast h
    · rw [if_pos ha, if_neg (not_le.mpr hb)]
      apply iff_of_true
      · exact le_trans (div_neg_of_neg_of_pos (by exact_mod_cast hb) hWR).le
          (div_nonneg (by exact_mod_cast ha) hVR.le)
      · exact le_trans (neg_nonpos_of_nonneg (div_nonneg (sq_nonneg _) hw.le))
          (div_nonneg (sq_nonneg _) hv.le)
  · rcases le_or_lt 0 (dot q w) with hb | hb
    · rw [if_neg (not_le.mpr ha), if_pos hb]
      apply iff_of_false
      · exact not_le.mpr (lt_of_lt_of_le
          (div_neg_of_neg_of_pos (by exact_mod_cast ha) hVR)
          (div_nonneg (by exact_mod_cast hb) hWR.le))
      · apply not_le.mpr
        have ha2 : 0 < dot q v ^ 2 := by
          rw [pow_two]
          exact mul_pos_of_neg_of_neg ha ha
        exact lt_of_lt_of_le (neg_lt_zero.mpr (div_pos ha2 hv))
          (div_nonneg (sq_nonneg _) hw.le)
    · rw [if_neg (not_le.mpr ha), if_neg (not_le.mpr hb)]
      rw [neg_le_neg_iff]
      have haR : ((dot q v : ℚ) : ℝ) < 0 := by exact_mod_cast ha
      have hbR : ((dot q w : ℚ) : ℝ) < 0 := by exact_mod_cast hb
      constructor
      · intro h
        have h1 : -(((dot q v : ℚ) : ℝ) / Real.sqrt ((dot v v : ℚ) : ℝ)) ≤
            -(((dot q w : ℚ) : ℝ) / Real.sqrt ((dot w w : ℚ) : ℝ)) := neg_le_neg h
        rw [← neg_div, ← neg_div] at h1
        rw [sq_div_le_sq_div_iff hVq hWq (neg_nonneg.mpr haR.le)
          (neg_nonneg.mpr hbR.le)] at h1
        rw [neg_sq, neg_sq] at h1
        exact_mod_cast h1
      · intro h
        have h1 : ((dot q v : ℚ) : ℝ) ^ 2 / ((dot v v : ℚ) : ℝ) ≤
            ((dot q w : ℚ) : ℝ) ^ 2 / ((dot w w : ℚ) : ℝ) := by exact_mod_cast h
        rw [← neg_sq ((dot q v : ℚ) : ℝ), ← neg_sq ((dot q w : ℚ) : ℝ)] at h1
        rw [← sq_div_le_sq_div_iff hVq hWq (neg_nonneg.mpr haR.le)
          (neg_nonneg.mpr hbR.le)] at h1
        rw [neg_div, neg_div] at h1
        exact neg_le_neg_iff.mp h1

lemma cosineDistance_le_iff (q v w : Vec) (hq : 0 < dot q q) (hv : 0 < dot v v)
    (hw : 0 < dot w w) :
    cosineDistance q v ≤ cosineDistance q w ↔ simKey q w ≤ simKey q v := by
  unfold cosineDistance
  rw [sub_le_sub_iff_left]
  exact cosineSim_le_iff q v w hq hv hw

/-- C2: with at least `k` stored entries, retrieval returns exactly `k` of
them (with fewer, all of them: the length is `min k n` and the result is a
permutation of the store when `n ≤ k`), ordered by non-decreasing cosine
distance between their stored vectors and the query vector. -/
theorem retrieve_topk_sorted (qv : Vec) (k : Nat) (store : List IndexEntry)
    (hq : 0 < dot qv qv) (hs : ∀ e ∈ store, 0 < dot e.vector e.vector) :
    (retrieveVec qv k store).length = min k store.length ∧
    (retrieveVec qv k store).Pairwise
      (fun d e => cosineDistance qv d.vector ≤ cosineDistance qv e.vector) ∧
    (store.length ≤ k → (retrieveVec qv k store).Perm store) := by
  refine ⟨?_, ?_, ?_⟩
  · unfold retrieveVec
    rw [List.length_take, List.length_insertionSort]
  · have hsorted : List.Sorted (distLE qv) (store.insertionSort (distLE qv)) :=
      List.sorted_insertionSort _ _
    have htake : (retrieveVec qv k store).Pairwise (distLE qv) :=
      List.Pairwise.sublist (List.take_sublist k _) hsorted
    refine List.Pairwise.imp_of_mem ?_ htake
    intro d e hd he hde
    have hd2 : d ∈ store := (List.perm_insertionSort (distLE qv) store).mem_iff.mp
      (List.Sublist.mem hd (List.take_sublist k _))
    have he2 : e ∈ store := (List.perm_insertionSort (distLE qv) store).mem_iff.mp
      (List.Sublist.mem he (List.take_sublist k _))
    exact (cosineDistance_le_iff qv d.vector e.vector hq (hs d hd2) (hs e he2)).mpr hde
  · intro hlen
    unfold retrieveVec
    rw [List.take_of_length_le (by rw [List.length_insertionSort]; exact hlen)]
    exact List.perm_insertionSort _ _

/-- A two-entry store used by the retrieval witness. -/
def wStore : List IndexEntry :=
  [{ key := "a", vector := [(-1 : ℚ)], doc := { content := "A", source := "sa" } },
   { key := "b", vector := [(2 : ℚ)], doc := { content := "B", source := "sb" } }]

theorem retrieve_topk_sorted_witness :
    0 < dot [(1 : ℚ)] [(1 : ℚ)] ∧
    (∀ e ∈ wStore, 0 < dot e.vector e.vector) ∧
    ((retrieveVec [(1 : ℚ)] 2 wStore).length = min 2 wStore.length ∧
      (retrieveVec [(1 : ℚ)] 2 wStore).Pairwise
        (fun d e => cosineDistance [(1 : ℚ)] d.vector ≤ cosineDistance [(1 : ℚ)] e.vector) ∧
      (wStore.length ≤ 2 → (retrieveVec [(1 : ℚ)] 2 wStore).Perm wStore)) :=
  ⟨by norm_num [dot], by norm_num [wStore, dot],
    retrieve_topk_sorted _ _ _ (by norm_num [dot]) (by norm_num [wStore, dot])⟩

end RagMovie
